import Mathlib

/-!
Shallow embedding of the hierarchical pipeline engine
(`pipeline/base/cacher.py`, `pipeline/base/block.py`,
`src/pipeline_factory/pipeline.py`, `pipeline_factory/iterative_pipeline.py`,
`src/pipeline_factory/exceptions.py`).

Conventions of the embedding:
  * Python values flowing between steps are modelled by `Val`
    (None, str, int, tuple, list, dict with string keys).
  * A `shelve` key/value store is modelled by an association list that keeps
    insertion order; `h[k] = v` replaces in place or appends, `del h[k]`
    removes the entry.
  * SHA-512 digests are modelled by an injective deterministic encoding
    (`strHash`/`hashVal`), mirroring `utils/hash.py`:`HashFactory.compute`:
    primitives hash their string form, sequences hash the comma-join of the
    element hashes, dicts hash the item list sorted by key, and `None`
    hashes to the literal string "None".
  * Every run in the verified scenarios uses `instID = None`; Python keys
    the shelve stores by `str(self.instID)`, i.e. by the string "None"
    (`instKeyNone` below).
  * Exceptions are values of `Exc`; `Except Exc` models raising.
-/

/-- Python values passed between pipeline steps. -/
inductive Val where
  | vnone : Val
  | str : String → Val
  | int : Int → Val
  | tup : List Val → Val
  | list : List Val → Val
  | dict : List (String × Val) → Val

mutual

def valDecEq : (a b : Val) → Decidable (a = b)
  | .vnone, .vnone => isTrue rfl
  | .vnone, .str _ => isFalse (fun h => Val.noConfusion h)
  | .vnone, .int _ => isFalse (fun h => Val.noConfusion h)
  | .vnone, .tup _ => isFalse (fun h => Val.noConfusion h)
  | .vnone, .list _ => isFalse (fun h => Val.noConfusion h)
  | .vnone, .dict _ => isFalse (fun h => Val.noConfusion h)
  | .str _, .vnone => isFalse (fun h => Val.noConfusion h)
  | .str a, .str b =>
      match decEq a b with
      | isTrue h => isTrue (by rw [h])
      | isFalse h => isFalse (fun hh => h (Val.str.inj hh))
  | .str _, .int _ => isFalse (fun h => Val.noConfusion h)
  | .str _, .tup _ => isFalse (fun h => Val.noConfusion h)
  | .str _, .list _ => isFalse (fun h => Val.noConfusion h)
  | .str _, .dict _ => isFalse (fun h => Val.noConfusion h)
  | .int _, .vnone => isFalse (fun h => Val.noConfusion h)
  | .int _, .str _ => isFalse (fun h => Val.noConfusion h)
  | .int a, .int b =>
      match decEq a b with
      | isTrue h => isTrue (by rw [h])
      | isFalse h => isFalse (fun hh => h (Val.int.inj hh))
  | .int _, .tup _ => isFalse (fun h => Val.noConfusion h)
  | .int _, .list _ => isFalse (fun h => Val.noConfusion h)
  | .int _, .dict _ => isFalse (fun h => Val.noConfusion h)
  | .tup _, .vnone => isFalse (fun h => Val.noConfusion h)
  | .tup _, .str _ => isFalse (fun h => Val.noConfusion h)
  | .tup _, .int _ => isFalse (fun h => Val.noConfusion h)
  | .tup a, .tup b =>
      match valListDecEq a b with
      | isTrue h => isTrue (by rw [h])
      | isFalse h => isFalse (fun hh => h (Val.tup.inj hh))
  | .tup _, .list _ => isFalse (fun h => Val.noConfusion h)
  | .tup _, .dict _ => isFalse (fun h => Val.noConfusion h)
  | .list _, .vnone => isFalse (fun h => Val.noConfusion h)
  | .list _, .str _ => isFalse (fun h => Val.noConfusion h)
  | .list _, .int _ => isFalse (fun h => Val.noConfusion h)
  | .list _, .tup _ => isFalse (fun h => Val.noConfusion h)
  | .list a, .list b =>
      match valListDecEq a b with
      | isTrue h => isTrue (by rw [h])
      | isFalse h => isFalse (fun hh => h (Val.list.inj hh))
  | .list _, .dict _ => isFalse (fun h => Val.noConfusion h)
  | .dict _, .vnone => isFalse (fun h => Val.noConfusion h)
  | .dict _, .str _ => isFalse (fun h => Val.noConfusion h)
  | .dict _, .int _ => isFalse (fun h => Val.noConfusion h)
  | .dict _, .tup _ => isFalse (fun h => Val.noConfusion h)
  | .dict _, .list _ => isFalse (fun h => Val.noConfusion h)
  | .dict a, .dict b =>
      match valPairListDecEq a b with
      | isTrue h => isTrue (by rw [h])
      | isFalse h => isFalse (fun hh => h (Val.dict.inj hh))

def valListDecEq : (a b : List Val) → Decidable (a = b)
  | [], [] => isTrue rfl
  | [], _ :: _ => isFalse (fun h => List.noConfusion h)
  | _ :: _, [] => isFalse (fun h => List.noConfusion h)
  | x :: xs, y :: ys =>
      match valDecEq x y, valListDecEq xs ys with
      | isTrue h1, isTrue h2 => isTrue (by rw [h1, h2])
      | isFalse h1, _ => isFalse (fun hh => h1 (List.cons.inj hh).1)
      | _, isFalse h2 => isFalse (fun hh => h2 (List.cons.inj hh).2)

def valPairListDecEq : (a b : List (String × Val)) → Decidable (a = b)
  | [], [] => isTrue rfl
  | [], _ :: _ => isFalse (fun h => List.noConfusion h)
  | _ :: _, [] => isFalse (fun h => List.noConfusion h)
  | (k1, v1) :: xs, (k2, v2) :: ys =>
      match decEq k1 k2, valDecEq v1 v2, valPairListDecEq xs ys with
      | isTrue h1, isTrue h2, isTrue h3 => isTrue (by rw [h1, h2, h3])
      | isFalse h1, _, _ =>
          isFalse (fun hh => h1 (congrArg Prod.fst (List.cons.inj hh).1))
      | _, isFalse h2, _ =>
          isFalse (fun hh => h2 (congrArg Prod.snd (List.cons.inj hh).1))
      | _, _, isFalse h3 => isFalse (fun hh => h3 (List.cons.inj hh).2)

end

instance : DecidableEq Val := valDecEq

/-- Exception values of `src/pipeline_factory/exceptions.py`.  In Python,
`InvalidCache`, `SkipIterationError` and `BlockError` are subclasses of
`PipelineHalted`; `isPipelineHaltedKind` reproduces that subclass test. -/
inductive Exc where
  | skipIteration : Exc
  | untilStepReached : Val → Exc
  | pipelineBreak : Exc
  | pipelineHalted : String → Exc
  | blockError : String → String → Exc
  | invalidCache : String → Exc
  | other : String → Exc
deriving DecidableEq

/-- Membership in `REGISTERED_EXCEPTIONS = [SkipIterationError,
UntilStepReached, PipelineBreak]` (exceptions.py, lines 48-52). -/
def isRegistered : Exc → Bool
  | .skipIteration => true
  | .untilStepReached _ => true
  | .pipelineBreak => true
  | _ => false

/-- The `isinstance(err, PipelineHalted)` test: `PipelineHalted` itself and
its subclasses `InvalidCache`, `SkipIterationError`, `BlockError`. -/
def isPipelineHaltedKind : Exc → Bool
  | .pipelineHalted _ => true
  | .blockError _ _ => true
  | .invalidCache _ => true
  | .skipIteration => true
  | _ => false

/-- A short printable form of an exception, standing in for
`traceback.format_exc()` when a `BlockError` is built. -/
def excMsg : Exc → String
  | .skipIteration => "SkipIterationError"
  | .untilStepReached _ => "UntilStepReached"
  | .pipelineBreak => "PipelineBreak"
  | .pipelineHalted m => "PipelineHalted: " ++ m
  | .blockError n m => "BlockError " ++ n ++ ": " ++ m
  | .invalidCache m => "InvalidCache: " ++ m
  | .other m => m

/-! ### Ordered key/value stores (the `shelve` files) -/

/-- Keys of an association-list store. -/
def storeKeys (s : List (String × α)) : List String := s.map Prod.fst

/-- `h[k]` on a shelve store: first entry with the key, if any. -/
def lookupStore : List (String × α) → String → Option α
  | [], _ => none
  | p :: rest, k => if p.1 = k then some p.2 else lookupStore rest k

/-- `h[k] = v` on a shelve store: replace in place, else append. -/
def insertStore : List (String × α) → String → α → List (String × α)
  | [], k, v => [(k, v)]
  | p :: rest, k, v =>
      if p.1 = k then (k, v) :: rest else p :: insertStore rest k v

/-- `del h[k]` (under the unique-keys invariant of a dict-backed store);
deleting an absent key is a no-op, like the `except KeyError: pass`
in `clearOldInstances`. -/
def deleteStore : List (String × α) → String → List (String × α)
  | [], _ => []
  | p :: rest, k =>
      if p.1 = k then deleteStore rest k else p :: deleteStore rest k

/-! ### The hash factory (`utils/hash.py`) -/

/-- Digest of a primitive rendered as a string:
`sha512(str(d).encode("utf-8")).hexdigest()`, modelled injectively. -/
def strHash (s : String) : String := "sha[" ++ s ++ "]"

/-- Digest of a sequence from the digests of its elements:
`sha512(",".join(...).encode("utf-8")).hexdigest()`. -/
def listHash (hs : List String) : String := "sha[" ++ String.intercalate "," hs ++ "]"

/-- Boolean string order used to model `sorted(d.items(), key=str(key))`
for dict hashing; structural recursion over the character lists. -/
def charListLe : List Char → List Char → Bool
  | [], _ => true
  | _ :: _, [] => false
  | c :: cs, d :: ds =>
      if c = d then charListLe cs ds else decide (c.val < d.val)

def strLe (a b : String) : Bool := charListLe a.data b.data

/-- Insertion sort of dict items by key. -/
def insertSorted (p : String × α) : List (String × α) → List (String × α)
  | [] => [p]
  | q :: rest =>
      if strLe p.1 q.1 then p :: q :: rest else q :: insertSorted p rest

def sortByKey : List (String × α) → List (String × α)
  | [] => []
  | p :: rest => insertSorted p (sortByKey rest)

mutual

/-- `HashFactory.compute` restricted to `Val`: None hashes to "None",
str/int hash their textual form, tuples and lists hash the comma-join of
element hashes, dicts hash the item list sorted by key (each item being a
pair, i.e. a two-element tuple; sorting the items by key and then hashing
each item equals hashing each item and sorting the results by key, which
is the order of operations used here to keep the recursion structural). -/
def hashVal : Val → String
  | .vnone => "None"
  | .str s => strHash s
  | .int n => strHash (toString n)
  | .tup l => listHash (hashValList l)
  | .list l => listHash (hashValList l)
  | .dict d => listHash ((sortByKey (hashValPairs d)).map Prod.snd)

def hashValList : List Val → List String
  | [] => []
  | v :: rest => hashVal v :: hashValList rest

def hashValPairs : List (String × Val) → List (String × String)
  | [] => []
  | (k, v) :: rest => (k, listHash [strHash k, hashVal v]) :: hashValPairs rest

end

/-! ### The cache slot (`pipeline/base/cacher.py`) -/

/-- The durable write targets inside one element's cache directory. -/
inductive WriteEv where
  | inputHashW : WriteEv
  | codeHashW : WriteEv
  | outputW : WriteEv
  | outputHashW : WriteEv
  | instancesW : WriteEv
deriving DecidableEq

/-- One element's cache directory: `hash.pkl` (code hash), and the
`input_hash`, `output_hash`, `output` and (iterative only)
`cached_instances` shelve stores.  The `input_hash` store holds
`Option String` because Python can store `None` there (the memoized
`_inputHash` is `None` when `checkInput` was never called). -/
structure CacheSlot where
  codeHash : Option String := none
  inputHash : List (String × Option String) := []
  outputHash : List (String × String) := []
  output : List (String × Val) := []
  cachedInstances : List (String × List String) := []
deriving DecidableEq

/-- `str(self.instID)` for `instID = None`: the string "None". -/
def instKeyNone : String := "None"

/-- `Cacher._maximumSavedNum` default. -/
def maximumSavedNum : Nat := 10

/-- `Cacher.saveInputHash` (cacher.py, lines 203-218): writes the memoized
`self._inputHash` under the instance key, then dumps the code hash to
`hash.pkl`.  Returns the written slot and the durable writes in order. -/
def saveInputHashS (s : CacheSlot) (key : String) (regv : Option String)
    (codeH : String) : CacheSlot × List WriteEv :=
  ({ s with inputHash := insertStore s.inputHash key regv,
            codeHash := some codeH },
   [.inputHashW, .codeHashW])

/-- `Cacher.saveOutputToCache` (cacher.py, lines 271-279): writes the output,
then the output hash `hasher.compute(output)`. -/
def saveOutputToCacheS (s : CacheSlot) (key : String) (out : Val) :
    CacheSlot × List WriteEv :=
  ({ s with output := insertStore s.output key out,
            outputHash := insertStore s.outputHash key (hashVal out) },
   [.outputW, .outputHashW])

/-- Python `keys[:-m]`: empty when `m = 0`, else the first `len - m` keys. -/
def pyDropFromEnd (l : List String) (m : Nat) : List String :=
  if m = 0 then [] else l.take (l.length - m)

/-- `Cacher.clearOldInstances` (cacher.py, lines 172-201): if the
`input_hash` store holds at least `m` keys, delete all but the last `m`
keys from the `input_hash`, `output_hash` and `output` stores.  Returns the
evicted keys. -/
def clearOldInstancesS (s : CacheSlot) (m : Nat) : CacheSlot × List String :=
  let keys := storeKeys s.inputHash
  if keys.length < m then (s, [])
  else
    let evicted := pyDropFromEnd keys m
    ({ s with inputHash := List.foldl deleteStore s.inputHash evicted,
              outputHash := List.foldl deleteStore s.outputHash evicted,
              output := List.foldl deleteStore s.output evicted },
     evicted)

/-- `Cacher.updateCache` (cacher.py, lines 62-67):
`saveInputHash(); saveOutputToCache(output); clearOldInstances()`.
The second component is the ordered list of durable writes performed. -/
def updateCacheS (s : CacheSlot) (key : String) (regv : Option String)
    (codeH : String) (out : Val) (m : Nat) : CacheSlot × List WriteEv :=
  let r1 := saveInputHashS s key regv codeH
  let r2 := saveOutputToCacheS r1.1 key out
  let r3 := clearOldInstancesS r2.1 m
  (r3.1, r1.2 ++ r2.2)

/-- `InstancesCacher.saveInstances` (cacher.py, lines 532-544): writes the
instance list under the instance key into `cached_instances`. -/
def saveInstancesS (s : CacheSlot) (key : String) (ids : List String) :
    CacheSlot × List WriteEv :=
  ({ s with cachedInstances := insertStore s.cachedInstances key ids },
   [.instancesW])

/-- `InstancesCacher.saveInputHash` (cacher.py, lines 583-585):
the base save followed by `saveInstances`. -/
def saveInputHashI (s : CacheSlot) (key : String) (regv : Option String)
    (codeH : String) (ids : List String) : CacheSlot × List WriteEv :=
  let r1 := saveInputHashS s key regv codeH
  let r2 := saveInstancesS r1.1 key ids
  (r2.1, r1.2 ++ r2.2)

/-- `InstancesCacher.clearOldInstances` (cacher.py, lines 569-577): the base
eviction, then the same keys are deleted from `cached_instances`. -/
def clearOldInstancesI (s : CacheSlot) (m : Nat) : CacheSlot × List String :=
  let r := clearOldInstancesS s m
  ({ r.1 with cachedInstances := List.foldl deleteStore s.cachedInstances r.2 },
   r.2)

/-- `updateCache` as dispatched on an `InstancesCacher` (the overridden
`saveInputHash` and `clearOldInstances` are used). -/
def updateCacheI (s : CacheSlot) (key : String) (regv : Option String)
    (codeH : String) (ids : List String) (out : Val) (m : Nat) :
    CacheSlot × List WriteEv :=
  let r1 := saveInputHashI s key regv codeH ids
  let r2 := saveOutputToCacheS r1.1 key out
  let r3 := clearOldInstancesI r2.1 m
  (r3.1, r1.2 ++ r2.2)

/-- `Cacher.loadCachedOutput` (cacher.py, lines 248-269): a missing store
file or a missing instance key raises `InvalidCache`. -/
def loadCachedOutputS (s : CacheSlot) (key : String) : Except Exc Val :=
  match lookupStore s.output key with
  | none => .error (.invalidCache "cached output not found for instance")
  | some v => .ok v

/-! ### The element tree (`hierarchical_model.py`, `block.py`, `pipeline.py`) -/

/-- Python `s.endswith(suf)`. -/
def strEndsWith (s suf : String) : Bool :=
  List.isPrefixOf suf.data.reverse s.data.reverse

/-- Composite name of an element from its parent composite name (`pfx`,
"" for no parent) and its own name (`compositeName`,
hierarchical_model.py lines 73-84). -/
def mkName (pfx nm : String) : String :=
  if pfx = "" then nm else pfx ++ "." ++ nm

/-- Splitting on dots, for `isParentOf`. -/
def splitDotsAux (cur : List Char) : List Char → List (List Char)
  | [] => [cur.reverse]
  | c :: rest =>
      if c = '.' then cur.reverse :: splitDotsAux [] rest
      else splitDotsAux (c :: cur) rest

def pySplitDots (s : String) : List (List Char) := splitDotsAux [] s.data

/-- `HierarchyNode.isParentOf` (hierarchical_model.py, lines 332-347):
the dot-split of `selfName` is an initial segment of the dot-split of the
candidate composite name. -/
def pyIsParentOf (selfName childCandidate : String) : Bool :=
  let a := pySplitDots selfName
  let b := pySplitDots childCandidate
  decide (b.take a.length = a)

/-- A leaf (`Block`): name, the source text of `fn` (what
`inspect.getsource` reads for the code hash), the computation itself, and
the effective `cache` flag (`use_caching` joined with the constructor
argument). -/
structure BlockData where
  name : String
  src : String
  fn : List Val → Except Exc Val
  cache : Bool

/-- A tree element: a `Block` leaf, or a `Pipeline` with its `cache` flag
and ordered children. -/
inductive Elem where
  | block : BlockData → Elem
  | pipe : String → Bool → List Elem → Elem

def elemName : Elem → String
  | .block b => b.name
  | .pipe nm _ _ => nm

def elemIsPipe : Elem → Bool
  | .block _ => false
  | .pipe _ _ _ => true

mutual

/-- Keys of `collapsedChildren` / `collapsedNamedSteps`: composite names of
the leaves in depth-first order; `pfx` is the composite name of the
element's parent ("" at the root). -/
def leafNames : Elem → String → List String
  | .block b, pfx => [mkName pfx b.name]
  | .pipe nm _ cs, pfx => leafNamesList cs (mkName pfx nm)

def leafNamesList : List Elem → String → List String
  | [], _ => []
  | c :: rest, pfx => leafNames c pfx ++ leafNamesList rest pfx

end

/-- The run-configuration identifier (`RunConfiguration.configID`): a
black-box key, fixed for the runs under verification. -/
def theConfigID : String := "cfg0"

mutual

/-- The registered code hashers (block.py line 410, pipeline.py line 738):
a Block hashes `name + source(fn)`; a Pipeline hashes the list
`[name + configID] ++ [compute(child) for child in steps]` (each element
of that list, being a string, is hashed by the primitive hasher before the
list digest is taken). -/
def codeHashOf : Elem → String
  | .block b => strHash (b.name ++ b.src)
  | .pipe nm _ cs => listHash (strHash (nm ++ theConfigID) :: codeHashList cs)

def codeHashList : List Elem → List String
  | [] => []
  | c :: rest => strHash (codeHashOf c) :: codeHashList rest

end

/-! ### Run state and observable events -/

/-- Observable events of a run: `visit` when a pipeline invokes a child,
`exec` when a leaf's `fn` is invoked, `cachedHit` for the progress signal
of `onSuccessfulCachingLoad`, and `cacheSkip` when a Pipeline serves its
own cached output without walking its children. -/
inductive Ev where
  | visit : String → Ev
  | exec : String → Ev
  | cachedHit : String → Ev
  | cacheSkip : String → Ev
deriving DecidableEq

/-- Mutable run state: the cache tree (one `CacheSlot` per composite name;
cache directories ignore the instance and the `configID` is fixed) and the
in-memory `_inputHash` registers of the live objects (an absent entry is
Python `None`). -/
structure RS where
  cache : List (String × CacheSlot) := []
  regs : List (String × String) := []
deriving DecidableEq

def getSlot (st : RS) (k : String) : CacheSlot :=
  (lookupStore st.cache k).getD {}

def putSlot (st : RS) (k : String) (s : CacheSlot) : RS :=
  { st with cache := insertStore st.cache k s }

def setReg (st : RS) (k : String) (h : String) : RS :=
  { st with regs := insertStore st.regs k h }

def getReg (st : RS) (k : String) : Option String :=
  lookupStore st.regs k

/-- `Cacher.checkInput` (cacher.py, lines 318-338): `False` when caching is
disabled; otherwise memoize the computed input hash in `_inputHash`, load
the stored one (`InvalidCache` surfaces as `False`), and compare.  The
stored code hash plays no part here. -/
def checkInputEval (st : RS) (cname : String) (cacheFlag : Bool)
    (h : String) : Bool × RS :=
  if cacheFlag then
    let st1 := setReg st cname h
    match lookupStore (getSlot st1 cname).inputHash instKeyNone with
    | none => (false, st1)
    | some stored => (decide (stored = some h), st1)
  else (false, st)

/-- Python `fn(self, *inp)` argument unpacking; the engine always passes
tuples between steps. -/
def pyStarArgs : Val → List Val
  | .tup l => l
  | .list l => l
  | v => [v]

/-- `if inp is None: inp = tuple()` at the top of `Block._run`. -/
def noneToEmptyTup : Val → Val
  | .vnone => Val.tup []
  | v => v

/-- The return normalization of `Block._run` (block.py, lines 339-340):
`if ret is not None and not isinstance(ret, tuple): ret = (ret,)` — a
`None` return is left as `None`. -/
def pyWrapReturn : Val → Val
  | .vnone => Val.vnone
  | .tup l => Val.tup l
  | r => Val.tup [r]

/-- The body of `Block._run` (block.py, lines 318-342) under the cache
decorator: normalize a `None` input to `()`, invoke `fn`, re-raise the
registered signaling exceptions unchanged, wrap any other exception in
`BlockError(name, traceback)` (a `PipelineHalted` subclass), and normalize
the return value: `if ret is not None and not isinstance(ret, tuple)` wrap
in a 1-tuple — so a `None` return stays `None`. -/
def blockBody (b : BlockData) (inp : Val) : Except Exc Val :=
  let inp1 := noneToEmptyTup inp
  match b.fn (pyStarArgs inp1) with
  | .error e =>
      if isRegistered e then .error e
      else .error (.blockError b.name (excMsg e))
  | .ok ret => .ok (pyWrapReturn ret)

/-- `Block.run` through the cached-call protocol (`Cacher.cached`,
cacher.py lines 495-522): when `forceDo` is false, `checkInput((inp,))`
decides the gate (setting the `_inputHash` register when caching is
enabled); on a hit `onSuccessfulCachingLoad` fires and the stored output
is loaded (which may itself raise `InvalidCache`); otherwise the body runs
and, when caching is enabled, `updateCache` persists the result using the
`_inputHash` register as the input hash.  The out-of-space retry
(`except OSError` with `errno == 28`) and the `clearCache(ifEmpty=True)`
cleanup in the `finally` clause have no effect in a model without
filesystem failures and are omitted. -/
def blockRunStep (st : RS) (cname : String) (b : BlockData) (inp : Val)
    (forceDo : Bool) : RS × List Ev × Except Exc Val :=
  let runBody : RS → RS × List Ev × Except Exc Val := fun st1 =>
    match blockBody b inp with
    | .error e => (st1, [.exec cname], .error e)
    | .ok ret =>
        if b.cache then
          let r := updateCacheS (getSlot st1 cname) instKeyNone
            (getReg st1 cname) (codeHashOf (.block b)) ret maximumSavedNum
          (putSlot st1 cname r.1, [.exec cname], .ok ret)
        else (st1, [.exec cname], .ok ret)
  if forceDo then runBody st
  else
    let g := checkInputEval st cname b.cache (hashVal (.tup [inp]))
    if g.1 then
      (g.2, [.cachedHit cname],
       loadCachedOutputS (getSlot g.2 cname) instKeyNone)
    else runBody g.2

/-- Truthiness of the `untilStep` string parameter. -/
def untilTruthy : Option String → Bool
  | none => false
  | some u => decide (u ≠ "")

/-- `Pipeline.useCache` (pipeline.py, lines 240-265): `False` when
`untilStep` matches a collapsed step of this pipeline, `False` when any
`_forceRunSteps` entry matches one, otherwise `checkInput(inp)`. -/
def useCacheEval (st : RS) (cname : String) (collapsed : List String)
    (cacheFlag : Bool) (inp : Val) (untilStep : Option String)
    (frs : List String) : Bool × RS :=
  if untilTruthy untilStep &&
      collapsed.any (fun x => strEndsWith x (untilStep.getD "")) then
    (false, st)
  else if (!frs.isEmpty) &&
      collapsed.any (fun x => frs.any (fun y => strEndsWith x y)) then
    (false, st)
  else checkInputEval st cname cacheFlag (hashVal inp)

/-- Outcome of the child loop of `Pipeline._run`: loop ran to the end,
an in-loop `return`, or a raised exception. -/
inductive LoopOut where
  | done : Val → LoopOut
  | early : Val → LoopOut
  | err : Exc → LoopOut

/-- Result of running one child: continue the loop with the new
accumulator, or leave the loop. -/
inductive StepRes where
  | again : Val → StepRes
  | stop : LoopOut → StepRes

/-- `os.path.exists(step.cachedOutputPath)`: the output store of the slot
has been materialized. -/
def outputFileExists (st : RS) (cname : String) : Bool :=
  !(getSlot st cname).output.isEmpty

/-- The decision taken by the `_fromStep` pre-step of the child loop
(pipeline.py, lines 368-383). -/
inductive FromStepAct where
  | skipSilent : FromStepAct
  | loadAndSkip : FromStepAct
  | runForced : FromStepAct
  | runPlain : FromStepAct

def fromStepAct (c : Elem) (cname : String) (fromStep : Option String)
    (doFlag : Bool) : FromStepAct :=
  match fromStep, doFlag with
  | some fs, false =>
      if elemIsPipe c && decide (fs ≠ "init") && !(pyIsParentOf cname fs) then
        .skipSilent
      else if cname = fs then .loadAndSkip
      else .runForced
  | _, _ => .runPlain

/-- The exception handling and `untilStep` post-check applied to one
child-run result within the loop of `Pipeline._run` (pipeline.py, lines
420-444): `UntilStepReached` data is returned at the root and re-raised
below it; `PipelineBreak` returns the accumulator from before the child;
`PipelineHalted` (and its subclasses) re-raise; any other exception turns
into `PipelineHalted`; on success, a child whose composite name matches
`untilStep` triggers `self.updateCache(out)` exactly when it equals
`self.lastStep`, then returns at the root or raises `UntilStepReached`. -/
def handleChildResult (pCname lastName : String) (pIsRoot : Bool)
    (pCodeHash : String) (untilStep : Option String) (cname : String)
    (out : Val) (r : RS × List Ev × Except Exc Val) :
    RS × List Ev × StepRes :=
  match r with
  | (stA, evsA, res) =>
    match res with
    | .error (.untilStepReached d) =>
        if pIsRoot then (stA, .visit cname :: evsA, .stop (.early d))
        else (stA, .visit cname :: evsA, .stop (.err (.untilStepReached d)))
    | .error .pipelineBreak =>
        (stA, .visit cname :: evsA, .stop (.early out))
    | .error e =>
        if isPipelineHaltedKind e then
          (stA, .visit cname :: evsA, .stop (.err e))
        else
          (stA, .visit cname :: evsA,
           .stop (.err (.pipelineHalted "Internal error occurred. Check logs.")))
    | .ok out1 =>
        if untilTruthy untilStep &&
            strEndsWith cname (untilStep.getD "") then
          let stB :=
            if cname = lastName then
              putSlot stA pCname
                (updateCacheS (getSlot stA pCname) instKeyNone
                  (getReg stA pCname) pCodeHash out1 maximumSavedNum).1
            else stA
          if pIsRoot then (stB, .visit cname :: evsA, .stop (.early out1))
          else
            (stB, .visit cname :: evsA,
             .stop (.err (.untilStepReached out1)))
        else (stA, .visit cname :: evsA, .again out1)

/-- Body of one iteration of the child loop of `Pipeline._run`
(pipeline.py, lines 384-444), after the `_fromStep` pre-step: run the
child (a sub-Pipeline receives `_fromStep`, `untilStep`,
`forceDo or _fromStep is not None` and `_forceRunSteps`; a Block receives
`forceDo or` the `_forceRunSteps` suffix match), then translate the
result through `handleChildResult`. -/
def runOneChild
    (recRun : Elem → String → RS → Val → Option String → Option String →
      Bool → List String → RS × List Ev × Except Exc Val)
    (pCname lastName : String) (pIsRoot : Bool) (pCodeHash : String)
    (untilStep fromStep : Option String) (origForceDo : Bool)
    (frs : List String) (c : Elem) (cname : String) (st : RS) (out : Val) :
    RS × List Ev × StepRes :=
  handleChildResult pCname lastName pIsRoot pCodeHash untilStep cname out
    (match c with
     | .pipe nm cf cs =>
         recRun (.pipe nm cf cs) pCname st out untilStep fromStep
           (origForceDo || fromStep.isSome) frs
     | .block b =>
         blockRunStep st cname b out
           (origForceDo ||
             ((!frs.isEmpty) && frs.any (fun x => strEndsWith cname x))))

/-- The child loop of `Pipeline._run` (pipeline.py, lines 365-444). -/
def runChildren
    (recRun : Elem → String → RS → Val → Option String → Option String →
      Bool → List String → RS × List Ev × Except Exc Val)
    (pCname lastName : String) (pIsRoot : Bool) (pCodeHash : String)
    (untilStep fromStep : Option String) (origForceDo : Bool)
    (frs : List String) :
    List Elem → Bool → RS → Val → RS × List Ev × LoopOut
  | [], _, st, out => (st, [], .done out)
  | c :: rest, doFlag, st, out =>
    let cname := mkName pCname (elemName c)
    match fromStepAct c cname fromStep doFlag with
    | .skipSilent =>
        runChildren recRun pCname lastName pIsRoot pCodeHash untilStep
          fromStep origForceDo frs rest doFlag st out
    | .loadAndSkip =>
        if outputFileExists st cname then
          match loadCachedOutputS (getSlot st cname) instKeyNone with
          | .ok v =>
              runChildren recRun pCname lastName pIsRoot pCodeHash untilStep
                fromStep origForceDo frs rest true st v
          | .error e => (st, [], .err e)
        else
          runChildren recRun pCname lastName pIsRoot pCodeHash untilStep
            fromStep origForceDo frs rest true st out
    | .runForced =>
        match runOneChild recRun pCname lastName pIsRoot pCodeHash untilStep
            fromStep origForceDo frs c cname st out with
        | (stA, evsA, .stop lo) => (stA, evsA, lo)
        | (stA, evsA, .again out1) =>
            match runChildren recRun pCname lastName pIsRoot pCodeHash
                untilStep fromStep origForceDo frs rest true stA out1 with
            | (stB, evsB, lo) => (stB, evsA ++ evsB, lo)
    | .runPlain =>
        match runOneChild recRun pCname lastName pIsRoot pCodeHash untilStep
            fromStep origForceDo frs c cname st out with
        | (stA, evsA, .stop lo) => (stA, evsA, lo)
        | (stA, evsA, .again out1) =>
            match runChildren recRun pCname lastName pIsRoot pCodeHash
                untilStep fromStep origForceDo frs rest doFlag stA out1 with
            | (stB, evsB, lo) => (stB, evsA ++ evsB, lo)

/-- The root-level existence check of `Pipeline._run` (pipeline.py, lines
344-353): at the root, with no `_fromStep`, a supplied `untilStep` that
matches no collapsed step makes the run fail with `PipelineHalted`. -/
def rootUntilMissing (collapsed : List String) (isRoot : Bool)
    (untilStep fromStep : Option String) : Bool :=
  untilStep.isSome && isRoot && fromStep.isNone &&
    !(collapsed.any (fun x => strEndsWith x (untilStep.getD "")))

/-- `Pipeline._run` (pipeline.py, lines 316-448) together with
`Block.run` dispatch for leaves.  Parameters after the element: the parent
composite name (`""` at the top), `isRoot` (`self.parent is None`), the
run state, the input tuple, `untilStep`, `_fromStep`, `forceDo` and
`_forceRunSteps`.  The fuel bounds the nesting depth of pipelines; any
concrete run below uses ample fuel.  `reset()`, `os.makedirs`,
`finalize()` (which only prunes empty results directories) and the
nested-Pipeline unwrapping of `out` (impossible for `Val`) have no
cache-visible effect and are omitted. -/
def runElem : Nat → Elem → String → Bool → RS → Val → Option String →
    Option String → Bool → List String → RS × List Ev × Except Exc Val
  | _, .block b, pfx, _, st, inp, _, _, forceDo, _ =>
      blockRunStep st (mkName pfx b.name) b inp forceDo
  | 0, .pipe _ _ _, _, _, st, _, _, _, _, _ =>
      (st, [], .error (.pipelineHalted "recursion fuel exhausted"))
  | fuel + 1, .pipe nm cf cs, pfx, isRoot, st, inp, untilStep, fromStep,
      forceDo, frs =>
      let cname := mkName pfx nm
      let collapsed := leafNamesList cs cname
      if rootUntilMissing collapsed isRoot untilStep fromStep then
        (st, [],
         .error (.pipelineHalted
           "Supplied step name does not belong in the pipeline"))
      else
        let walk : RS → RS × List Ev × Except Exc Val := fun stW =>
          let lastName := (collapsed.getLast?).getD ""
          let ch := codeHashOf (.pipe nm cf cs)
          match runChildren
              (fun c pfx2 st2 inp2 us fs fd fr =>
                runElem fuel c pfx2 false st2 inp2 us fs fd fr)
              cname lastName isRoot ch untilStep fromStep forceDo frs
              cs forceDo stW inp with
          | (st2, evs, .done out) =>
              if cf then
                (putSlot st2 cname
                  (updateCacheS (getSlot st2 cname) instKeyNone
                    (getReg st2 cname) ch out maximumSavedNum).1,
                 evs, .ok out)
              else (st2, evs, .ok out)
          | (st2, evs, .early v) => (st2, evs, .ok v)
          | (st2, evs, .err e) => (st2, evs, .error e)
        if forceDo then walk st
        else
          let g := useCacheEval st cname collapsed cf inp untilStep frs
          if g.1 then
            (g.2, .cacheSkip cname :: collapsed.map Ev.cachedHit,
             loadCachedOutputS (getSlot g.2 cname) instKeyNone)
          else walk g.2

/-! ### The iterative executor (`pipeline_factory/iterative_pipeline.py`) -/

/-- What one task contributed, as inspected by the aggregation loops of
`IterativePipeline._run` with `isinstance` checks: a returned value (for a
completed task `_singleTask` returns the pair `(pipeline._run(...), 1)`),
a logged `SkipIterationError`, or an `UntilStepReached` carrying data. -/
inductive TaskRes where
  | ok : Val → TaskRes
  | skip : TaskRes
  | untilR : Val → TaskRes
deriving DecidableEq

/-- `IterativePipeline._singleTask` (lines 339-408) as seen by the loops:
a completed run is packaged as the pair `(output, 1)`; `UntilStepReached`
and `SkipIterationError` are returned as objects; any other exception
propagates once the retries are exhausted. -/
def singleTaskOutcome (r : Except Exc Val) : Except Exc TaskRes :=
  match r with
  | .ok v => .ok (.ok (.tup [v, .int 1]))
  | .error (.untilStepReached d) => .ok (.untilR d)
  | .error .skipIteration => .ok .skip
  | .error e => .error e

/-- Mutable state of the aggregation loops: the ordered result mapping
`ret`, the failure counter, and `self.stepReached`. -/
structure AggSt where
  ret : List (String × Val)
  failed : Nat
  stepReached : Bool
deriving DecidableEq

def aggInit : AggSt := ⟨[], 0, false⟩

/-- One iteration of the parallel aggregation loop (iterative_pipeline.py,
lines 272-281): `self.stepReached = isinstance(it, UntilStepReached)` is
assigned on every iteration, overwriting the previous value, before the
skip test. -/
def aggStepPar (s : AggSt) (kr : String × TaskRes) : AggSt :=
  match kr.2 with
  | .skip => { s with stepReached := false, failed := s.failed + 1 }
  | .untilR d => { s with stepReached := true, ret := insertStore s.ret kr.1 d }
  | .ok v => { s with stepReached := false, ret := insertStore s.ret kr.1 v }

/-- One iteration of the sequential loop (iterative_pipeline.py, lines
283-308): `stepReached` is only ever set to `True`, in the
`UntilStepReached` branch. -/
def aggStepSeq (s : AggSt) (kr : String × TaskRes) : AggSt :=
  match kr.2 with
  | .skip => { s with failed := s.failed + 1 }
  | .untilR d => { s with stepReached := true, ret := insertStore s.ret kr.1 d }
  | .ok v => { s with ret := insertStore s.ret kr.1 v }

def iterAggFrom (parallelMode : Bool) (s : AggSt)
    (results : List (String × TaskRes)) : AggSt :=
  List.foldl (if parallelMode then aggStepPar else aggStepSeq) s results

/-- Lines 309-317 of `IterativePipeline._run`: raise `SkipIterationError`
when the failure counter equals the number of inputs, wrap the mapping in
a 1-tuple, and dispatch on `stepReached` (return at the root, raise
`UntilStepReached(aggregate)` otherwise). -/
def iterFinalize (isRoot : Bool) (numTasks : Nat) (s : AggSt) :
    Except Exc Val :=
  if s.failed = numTasks then .error .skipIteration
  else
    let ret1 := Val.tup [Val.dict s.ret]
    if s.stepReached then
      if isRoot then .ok ret1 else .error (.untilStepReached ret1)
    else .ok ret1

/-- The aggregation half of `IterativePipeline._run`, given what each task
contributed, in key order. -/
def iterRunResults (parallelMode isRoot : Bool)
    (results : List (String × TaskRes)) : Except Exc Val :=
  iterFinalize isRoot results.length
    (iterAggFrom parallelMode aggInit results)

/-- Input normalization of `IterativePipeline._run` (lines 223-240): a
tuple produced by a previous step is unwrapped through its first element
(an empty tuple raises `IndexError`); a plain string becomes a singleton
key list; a list whose members are all strings becomes a mapping from
those keys to empty argument tuples; a mapping is used as is; anything
else fails when `inps.keys()` is taken. -/
def normalizeIterInp (v : Val) : Except Exc (List (String × Val)) :=
  let unwrapped : Except Exc Val :=
    match v with
    | .tup [] => .error (.other "IndexError: tuple index out of range")
    | .tup (x :: _) => .ok x
    | w => .ok w
  match unwrapped with
  | .error e => .error e
  | .ok w =>
    let w1 := match w with | .str s => Val.list [.str s] | u => u
    match w1 with
    | .list l =>
        if l.all (fun x => match x with | .str _ => true | _ => false) then
          .ok (l.map (fun x =>
            ((match x with | .str s => s | _ => ""), Val.tup [])))
        else .error (.other "TypeError: non-string keys")
    | .dict d => .ok d
    | _ => .error (.other "AttributeError: keys")

/-- `IterativePipeline._run`: normalize the input, run one task per key in
order (`taskOf` abstracts the per-key task body `_singleTask`), and
aggregate. -/
def iterRunVal (inp : Val) (parallelMode isRoot : Bool)
    (taskOf : String → Val → TaskRes) : Except Exc Val :=
  match normalizeIterInp inp with
  | .error e => .error e
  | .ok inps =>
      iterRunResults parallelMode isRoot
        (inps.map (fun p => (p.1, taskOf p.1 p.2)))

/-- Helpers for stating the aggregation theorem. -/
def isSkipRes : TaskRes → Bool
  | .skip => true
  | _ => false

def isUntilRes : TaskRes → Bool
  | .untilR _ => true
  | _ => false

/-- The mapping the loops accumulate: failed keys are omitted, an
`UntilStepReached` task contributes its carried data, a completed task its
returned value. -/
def collectRes : List (String × TaskRes) → List (String × Val)
  | [] => []
  | (_, .skip) :: rest => collectRes rest
  | (k, .ok v) :: rest => (k, v) :: collectRes rest
  | (k, .untilR d) :: rest => (k, d) :: collectRes rest

def countSkips : List (String × TaskRes) → Nat
  | [] => 0
  | (_, .skip) :: rest => countSkips rest + 1
  | _ :: rest => countSkips rest

/-- The final value of `stepReached` under the parallel loop: the flag is
overwritten on each iteration, so only the last task decides. -/
def srPar (b : Bool) : List (String × TaskRes) → Bool
  | [] => b
  | (_, r) :: rest => srPar (isUntilRes r) rest

/-- The final value of `stepReached` under the sequential loop: sticky,
so any `UntilStepReached` task sets it. -/
def srSeq (b : Bool) : List (String × TaskRes) → Bool
  | [] => b
  | (_, r) :: rest => srSeq (b || isUntilRes r) rest

/-! ### Decidable equality for run results -/

instance [DecidableEq e] [DecidableEq a] : DecidableEq (Except e a)
  | .error x, .error y =>
      match decEq x y with
      | isTrue h => isTrue (by rw [h])
      | isFalse h => isFalse (fun hh => h (Except.error.inj hh))
  | .error _, .ok _ => isFalse (fun h => Except.noConfusion h)
  | .ok _, .error _ => isFalse (fun h => Except.noConfusion h)
  | .ok x, .ok y =>
      match decEq x y with
      | isTrue h => isTrue (by rw [h])
      | isFalse h => isFalse (fun hh => h (Except.ok.inj hh))

/-! ### Concrete scenarios from the specification (spec section 8)

S1/S2/S3: the root pipeline `P` with leaves `A`, `B`, `C` where
`A.fn() = "α"`, `B.fn(x) = x + "β"`, `C.fn(x) = x + "γ"`, and the S2
modification of `B.fn` to `λx. x + "Β"` (different source, so a different
code hash). -/

def blockA : BlockData :=
  { name := "A", src := "def a(self): return chr(945)",
    fn := fun _ => .ok (.str "α"), cache := true }

def blockB : BlockData :=
  { name := "B", src := "def b(self, x): return x + chr(946)",
    fn := fun args => match args with
      | [.str s] => .ok (.str (s ++ "β"))
      | _ => .error (.other "TypeError"), cache := true }

def blockBmod : BlockData :=
  { name := "B", src := "def b(self, x): return x + chr(914)",
    fn := fun args => match args with
      | [.str s] => .ok (.str (s ++ "Β"))
      | _ => .error (.other "TypeError"), cache := true }

def blockC : BlockData :=
  { name := "C", src := "def c(self, x): return x + chr(947)",
    fn := fun args => match args with
      | [.str s] => .ok (.str (s ++ "γ"))
      | _ => .error (.other "TypeError"), cache := true }

def pipeABC : Elem :=
  .pipe "P" true [.block blockA, .block blockB, .block blockC]

def pipeABmodC : Elem :=
  .pipe "P" true [.block blockA, .block blockBmod, .block blockC]

/-- S1 cold run of `P` on the empty input tuple, from empty stores. -/
def s1ColdRun : RS × List Ev × Except Exc Val :=
  runElem 5 pipeABC "" true {} (.tup []) none none false []

/-- The cache state after the cold run. -/
def s2State : RS := s1ColdRun.1

/-- S2: re-run after modifying `B.fn`, same input. -/
def s2Rerun : RS × List Ev × Except Exc Val :=
  runElem 5 pipeABmodC "" true s2State (.tup []) none none false []

/-- S2 with the pipeline-level gate defeated through
`forceRunSteps = ["A"]`, so the children are walked. -/
def s2ForcedWalk : RS × List Ev × Except Exc Val :=
  runElem 5 pipeABmodC "" true s2State (.tup []) none none false ["A"]

/-- S3: cold run of `P` with `untilStep = "B"`. -/
def s3UntilB : RS × List Ev × Except Exc Val :=
  runElem 5 pipeABC "" true {} (.tup []) (some "B") none false []

/-- Contrast run with `untilStep = "C"`, matching the last child. -/
def s3UntilC : RS × List Ev × Except Exc Val :=
  runElem 5 pipeABC "" true {} (.tup []) (some "C") none false []

/-- Nested tree for the pipeline cache gate: `P = [Q = [X], Z]`. -/
def blockX : BlockData :=
  { name := "X", src := "def x(self): return 1",
    fn := fun _ => .ok (.str "x"), cache := true }

def blockZ : BlockData :=
  { name := "Z", src := "def z(self, s): return s",
    fn := fun args => match args with
      | [.str s] => .ok (.str (s ++ "z"))
      | _ => .error (.other "TypeError"), cache := true }

def pipeQX : Elem := .pipe "Q" true [.block blockX]

def pipePQZ : Elem := .pipe "P" true [pipeQX, .block blockZ]

/-- Warm state: a full cold run of `P = [Q = [X], Z]`. -/
def pqWarmState : RS :=
  (runElem 5 pipePQZ "" true {} (.tup []) none none false []).1

/-- Re-run over the warm state with `untilStep = "Z"`: `Z` lives outside
the subtree of `Q`. -/
def pqUntilZRun : RS × List Ev × Except Exc Val :=
  runElem 5 pipePQZ "" true pqWarmState (.tup []) (some "Z") none false []

/-- A leaf for the `InvalidCache` scenario. -/
def blockW : BlockData :=
  { name := "W", src := "def w(self): return 2",
    fn := fun _ => .ok (.str "w"), cache := true }

/-- A cache slot whose `input_hash` store matches the upcoming call on the
empty input tuple while the `output` store has no entry for the
instance. -/
def orphanSlot : CacheSlot :=
  { inputHash := [(instKeyNone, some (hashVal (.tup [.tup []])))] }

def orphanState : RS := { cache := [("V.W", orphanSlot)] }

def pipeVW : Elem := .pipe "V" true [.block blockW]

/-- Run of the root pipeline `V` over the orphaned slot of its leaf. -/
def orphanRun : RS × List Ev × Except Exc Val :=
  runElem 5 pipeVW "" true orphanState (.tup []) none none false []

/-- Witness scenario for the `InvalidCache` theorem: a distinct leaf and
slot, matching input hash, no stored output. -/
def blockW2 : BlockData :=
  { name := "W2", src := "def w2(self, q): return q",
    fn := fun args => match args with
      | [.str s] => .ok (.str s)
      | _ => .error (.other "TypeError"), cache := true }

def c2wState : RS :=
  { cache := [("W2", { inputHash :=
      [(instKeyNone, some (hashVal (.tup [.tup [.str "q"]])))] })] }

/-- Leaves for the return-normalization and error-mapping claims. -/
def blockNone : BlockData :=
  { name := "N", src := "def n(self): return None",
    fn := fun _ => .ok .vnone, cache := true }

def blockScalar : BlockData :=
  { name := "S", src := "def s(self): return 3",
    fn := fun _ => .ok (.str "s"), cache := true }

def blockRaise : BlockData :=
  { name := "R", src := "def r(self): raise ValueError",
    fn := fun _ => .error (.other "ValueError"), cache := true }

/-- A slot already holding `maximumSavedNum` instances, for the eviction
witness. -/
def tenKeys : List String :=
  ["k0", "k1", "k2", "k3", "k4", "k5", "k6", "k7", "k8", "k9"]

def fullSlot : CacheSlot :=
  { codeHash := some "ch",
    inputHash := tenKeys.map (fun k => (k, some "ih")),
    outputHash := tenKeys.map (fun k => (k, "oh")),
    output := tenKeys.map (fun k => (k, Val.str "o")),
    cachedInstances := tenKeys.map (fun k => (k, [k])) }

/-- Task results for the iterative aggregation counterexample: the first
task signals `UntilStepReached`, the last completes normally. -/
def c9Results : List (String × TaskRes) :=
  [("k1", .untilR (.str "d1")), ("k2", .ok (.str "v2"))]

/-! ## Helper lemmas about stores -/

theorem storeKeys_append (a b : List (String × α)) :
    storeKeys (a ++ b) = storeKeys a ++ storeKeys b := by
  simp [storeKeys]

theorem insertStore_not_mem (s : List (String × α)) (k : String) (v : α)
    (h : k ∉ storeKeys s) : insertStore s k v = s ++ [(k, v)] := by
  induction s with
  | nil => rfl
  | cons p rest ih =>
      simp [storeKeys] at h
      simp [insertStore, Ne.symm h.1]
      exact ih (by simp [storeKeys, h.2])

theorem deleteStore_not_mem (s : List (String × α)) (k : String)
    (h : k ∉ storeKeys s) : deleteStore s k = s := by
  induction s with
  | nil => rfl
  | cons p rest ih =>
      simp [storeKeys] at h
      simp [deleteStore, Ne.symm h.1]
      exact ih (by simp [storeKeys, h.2])

theorem lookupStore_not_mem (s : List (String × α)) (k : String)
    (h : k ∉ storeKeys s) : lookupStore s k = none := by
  induction s with
  | nil => rfl
  | cons p rest ih =>
      simp [storeKeys] at h
      simp [lookupStore, Ne.symm h.1]
      exact ih (by simp [storeKeys, h.2])

/-! ## C1 -/

/-- C1 (code bug): after the S1 cold run has cached every slot, modifying
only `B.fn` (so `codeHashOf` of the new `B` differs from the stored code
hash) and re-running on the same input does NOT re-execute `B` and `C`:
the whole pipeline is served from `P`'s own cache (stale `"αβγ"`, no
`exec` event), because neither `Cacher.cached` nor `Pipeline.useCache`
ever consults the stored code hash (`cacheExists`, which would, has no
caller).  Even with the pipeline gate defeated by
`forceRunSteps = ["A"]`, `B` and `C` are still served from their slots. -/
theorem c1_code_change_not_invalidated :
    s1ColdRun.2.2 = .ok (.tup [.str "αβγ"]) ∧
    s1ColdRun.2.1 = [.visit "P.A", .exec "P.A", .visit "P.B", .exec "P.B",
      .visit "P.C", .exec "P.C"] ∧
    codeHashOf (.block blockBmod) ≠ codeHashOf (.block blockB) ∧
    (getSlot s2State "P.B").codeHash = some (codeHashOf (.block blockB)) ∧
    s2Rerun.2.2 = .ok (.tup [.str "αβγ"]) ∧
    s2Rerun.2.1 = [.cacheSkip "P", .cachedHit "P.A", .cachedHit "P.B",
      .cachedHit "P.C"] ∧
    s2ForcedWalk.2.2 = .ok (.tup [.str "αβγ"]) ∧
    s2ForcedWalk.2.1 = [.visit "P.A", .exec "P.A", .visit "P.B",
      .cachedHit "P.B", .visit "P.C", .cachedHit "P.C"] := by
  decide

/-! ## C4 -/

/-- C4 (counterexample): `P._run((), untilStep = "B")` returns `"αβ"`, but
afterwards `P`'s output store holds nothing for the current instance —
`updateCache` runs only when the matched step is the pipeline's last
child, and `B` is not. -/
theorem c4_counterexample :
    s3UntilB.2.2 = .ok (.tup [.str "αβ"]) ∧
    lookupStore (getSlot s3UntilB.1 "P").output instKeyNone = none := by
  decide

/-- C4 (amended): `P._run((), untilStep = "B")` returns the output
accumulated through `B` and does not execute `C`, but `P`'s own cache slot
is left untouched (here: never created); the pipeline output store is
updated by the `untilStep` branch only when the matched step equals
`lastStep`, as the contrast run with `untilStep = "C"` shows. -/
theorem c4_untilStep_prefix :
    s3UntilB.2.2 = .ok (.tup [.str "αβ"]) ∧
    s3UntilB.2.1 = [.visit "P.A", .exec "P.A", .visit "P.B", .exec "P.B"] ∧
    lookupStore s3UntilB.1.cache "P" = none ∧
    s3UntilC.2.2 = .ok (.tup [.str "αβγ"]) ∧
    lookupStore (getSlot s3UntilC.1 "P").output instKeyNone =
      some (.tup [.str "αβγ"]) := by
  decide

/-! ## C3 (counterexample) -/

/-- C3 (counterexample): with a warm cache and `untilStep = "Z"` non-null,
the nested pipeline `Q` (whose subtree does not contain `Z`) is skipped
through its cache gate (`cacheSkip` event; its child `X` is not walked),
contradicting the claim that a non-null `untilStep` always makes a
pipeline walk its children. -/
theorem c3_counterexample :
    pqUntilZRun.2.1 = [.visit "P.Q", .cacheSkip "P.Q", .cachedHit "P.Q.X",
      .visit "P.Z", .cachedHit "P.Z"] ∧
    pqUntilZRun.2.2 = .ok (.tup [.str "xz"]) := by
  decide

/-! ## C2 -/

/-- C2 (counterexample): when the input-hash check succeeds but the stored
output is missing, `loadCachedOutput()` in the hit branch of
`Cacher.cached` is outside any handler, so `InvalidCache` (a
`PipelineHalted` subclass) escapes the cached-call protocol — both from
the block call itself and through the enclosing root pipeline to the
caller. -/
theorem c2_counterexample :
    (blockRunStep orphanState "V.W" blockW (.tup []) false).2.2 =
      .error (.invalidCache "cached output not found for instance") ∧
    orphanRun.2.2 =
      .error (.invalidCache "cached output not found for instance") := by
  decide

/-- C2 (amended): an `InvalidCache` arising while probing the stored input
hash is caught inside `checkInput` and surfaces as a cache miss (the body
runs and its result is returned unchanged); but when the input-hash check
succeeds and the stored output is missing, the cached call raises
`InvalidCache` to the caller. -/
theorem c2_invalid_cache_containment (st : RS) (cname : String)
    (b : BlockData) (inp : Val) :
    (lookupStore (getSlot st cname).inputHash instKeyNone = none →
      (blockRunStep st cname b inp false).2.2 = blockBody b inp) ∧
    (b.cache = true →
      lookupStore (getSlot st cname).inputHash instKeyNone =
        some (some (hashVal (.tup [inp]))) →
      lookupStore (getSlot st cname).output instKeyNone = none →
      (blockRunStep st cname b inp false).2.2 =
        .error (.invalidCache "cached output not found for instance")) := by
  constructor
  · intro h
    unfold blockRunStep checkInputEval
    cases hc : b.cache with
    | false =>
        simp only [Bool.false_eq_true, if_false]
        cases hb : blockBody b inp <;> simp [hb]
    | true =>
        have hslot : getSlot (setReg st cname (hashVal (.tup [inp]))) cname =
            getSlot st cname := rfl
        simp only [if_true, hslot, h]
        cases hb : blockBody b inp <;> simp [hb]
  · intro hc h1 h2
    unfold blockRunStep checkInputEval
    have hslot : getSlot (setReg st cname (hashVal (.tup [inp]))) cname =
        getSlot st cname := rfl
    simp only [hc, if_true, hslot, h1]
    simp [loadCachedOutputS, h2]

/-- Witness for the `InvalidCache` containment theorem at a concrete slot. -/
theorem c2_invalid_cache_containment_witness :
    (blockRunStep c2wState "W2" blockW2 (.tup [.str "q"]) false).2.2 =
      .error (.invalidCache "cached output not found for instance") :=
  (c2_invalid_cache_containment c2wState "W2" blockW2 (.tup [.str "q"])).2
    (by decide) (by decide) (by decide)

/-! ## C5 -/

/-- C5 (counterexample): a leaf whose `fn` returns `None` makes the block
return `None`, not the empty tuple — the wrap is guarded by
`ret is not None`. -/
theorem c5_counterexample :
    blockBody blockNone (.tup []) = .ok .vnone ∧
    blockBody blockNone (.tup []) ≠ .ok (.tup []) := by
  decide

/-- C5 (amended): a non-tuple, non-None return of `fn` is wrapped as a
1-tuple, a tuple is returned as is, and a `None` return is passed through
as `None` (not as the empty tuple). -/
theorem c5_return_normalization (b : BlockData) (inp v : Val)
    (h : b.fn (pyStarArgs (noneToEmptyTup inp)) = .ok v) :
    blockBody b inp = .ok (pyWrapReturn v) ∧
    pyWrapReturn Val.vnone = Val.vnone ∧
    (∀ l, pyWrapReturn (Val.tup l) = Val.tup l) ∧
    (∀ s, pyWrapReturn (Val.str s) = Val.tup [Val.str s]) ∧
    (∀ n, pyWrapReturn (Val.int n) = Val.tup [Val.int n]) :=
  ⟨congrArg (fun r : Except Exc Val =>
      match r with
      | .error e1 =>
          if isRegistered e1 then Except.error e1
          else Except.error (Exc.blockError b.name (excMsg e1))
      | .ok ret => Except.ok (pyWrapReturn ret)) h,
   rfl, fun _ => rfl, fun _ => rfl, fun _ => rfl⟩

/-- Witness for the return-normalization theorem: a scalar return is
wrapped as a 1-tuple. -/
theorem c5_return_normalization_witness :
    blockBody blockScalar (.tup []) = .ok (.tup [.str "s"]) :=
  (c5_return_normalization blockScalar (.tup []) (.str "s") (by decide)).1

/-! ## C6 -/

/-- C6: an exception raised by a leaf's `fn` that belongs to the
registered signaling kinds (`SkipIteration`, `UntilStepReached`,
`PipelineBreak`) is re-raised unchanged by `Block._run`, and any other
exception is wrapped exactly once in `BlockError(name, traceback)` — which
is a `PipelineHalted` subclass, so it is raised as a `PipelineHalted`; the
cached-call wrapper propagates it unchanged. -/
theorem c6_leaf_error_mapping (st : RS) (cname : String) (b : BlockData)
    (inp : Val) (e : Exc)
    (h : b.fn (pyStarArgs (noneToEmptyTup inp)) = .error e) :
    blockBody b inp =
      .error (if isRegistered e then e else .blockError b.name (excMsg e)) ∧
    (blockRunStep st cname b inp true).2.2 =
      .error (if isRegistered e then e else .blockError b.name (excMsg e)) ∧
    (isRegistered e = false →
      isPipelineHaltedKind (.blockError b.name (excMsg e)) = true) := by
  have hbody0 : blockBody b inp =
      (if isRegistered e then Except.error e
       else Except.error (Exc.blockError b.name (excMsg e))) :=
    congrArg (fun r : Except Exc Val =>
      match r with
      | .error e1 =>
          if isRegistered e1 then Except.error e1
          else Except.error (Exc.blockError b.name (excMsg e1))
      | .ok ret => Except.ok (pyWrapReturn ret)) h
  have hbody : blockBody b inp =
      .error (if isRegistered e then e else .blockError b.name (excMsg e)) := by
    cases hre : isRegistered e <;> simp [hre] at hbody0 ⊢ <;> exact hbody0
  refine ⟨hbody, ?_, fun _ => rfl⟩
  unfold blockRunStep
  simp [hbody]

/-- Witness for the leaf error mapping at a concrete raising leaf. -/
theorem c6_leaf_error_mapping_witness :
    blockBody blockRaise (.tup []) = .error (.blockError "R" "ValueError") :=
  (c6_leaf_error_mapping {} "R" blockRaise (.tup [])
    (.other "ValueError") (by decide)).1

/-! ## C8 -/

/-- C8 (counterexample): the durable writes of `updateCache` are not
performed in the order input-hash, output, output-hash, code-hash: the
code hash is written second (inside `saveInputHash`), not last. -/
theorem c8_counterexample :
    (updateCacheS {} instKeyNone (some "h") "ch" (.str "v")
        maximumSavedNum).2 ≠
      [.inputHashW, .outputW, .outputHashW, .codeHashW] := by
  decide

/-- C8 (amended): within one task, `updateCache` performs its durable
writes in the order input-hash, code-hash, output, output-hash — the code
hash is the second write, dumped by `saveInputHash` right after the input
hash. -/
theorem c8_write_order (s : CacheSlot) (key : String) (regv : Option String)
    (codeH : String) (out : Val) (m : Nat) :
    (updateCacheS s key regv codeH out m).2 =
      [.inputHashW, .codeHashW, .outputW, .outputHashW] := rfl

/-! ## C10 -/

/-- C10: an input that normalizes to an empty mapping (an empty dict, an
empty list of keys, or a 1-tuple carrying an empty dict) makes
`IterativePipeline._run` raise `SkipIterationError`, because the failure
counter (0) equals the number of inputs (0) — even though no task ran and
none failed. -/
theorem c10_empty_iterative_input (parallelMode isRoot : Bool)
    (taskOf : String → Val → TaskRes) :
    iterRunVal (.dict []) parallelMode isRoot taskOf =
      .error .skipIteration ∧
    iterRunVal (.list []) parallelMode isRoot taskOf =
      .error .skipIteration ∧
    iterRunVal (.tup [.dict []]) parallelMode isRoot taskOf =
      .error .skipIteration :=
  ⟨rfl, rfl, rfl⟩

/-! ## C9 (counterexample) -/

/-- C9 (counterexample): in parallel mode, a task that signaled
`UntilStepReached` followed by a normally completing task yields a plain
`ok` aggregate on a non-root pipeline — no `UntilStepReached(aggregate)`
is propagated, because `stepReached` is overwritten on every iteration of
the parallel collection loop and only the last task decides. -/
theorem c9_counterexample :
    iterRunResults true false c9Results =
      .ok (.tup [.dict [("k1", .str "d1"), ("k2", .str "v2")]]) ∧
    (match iterRunResults true false c9Results with
     | .error (.untilStepReached _) => true
     | _ => false) = false := by
  decide


/-- Behaviour of one eviction round on a single store: inserting a fresh
key appends it, and deleting the oldest key removes exactly that entry. -/
theorem evict_one {α : Type} (s : List (String × α)) (k0 : String)
    (ks : List String) (key : String) (v : α)
    (hk : storeKeys s = k0 :: ks) (hnd : (k0 :: ks).Nodup)
    (hfresh : key ∉ k0 :: ks) :
    storeKeys (deleteStore (insertStore s key v) k0) = ks ++ [key] ∧
    (deleteStore (insertStore s key v) k0).length = ks.length + 1 ∧
    lookupStore (deleteStore (insertStore s key v) k0) k0 = none := by
  have hfresh1 : key ∉ storeKeys s := by rw [hk]; exact hfresh
  have hins : insertStore s key v = s ++ [(key, v)] :=
    insertStore_not_mem s key v hfresh1
  cases s with
  | nil => simp [storeKeys] at hk
  | cons p rest =>
      have hp : p.1 = k0 := by
        have := congrArg List.head? hk
        simpa [storeKeys] using this
      have hrest : storeKeys rest = ks := by
        have := congrArg List.tail hk
        simpa [storeKeys] using this
      have hk0rest : k0 ∉ storeKeys rest := by
        rw [hrest]; exact (List.nodup_cons.mp hnd).1
      have hk0key : k0 ≠ key := by
        intro hkey
        exact hfresh (hkey ▸ List.mem_cons_self _ _)
      have hnotmem : k0 ∉ storeKeys (rest ++ [(key, v)]) := by
        rw [storeKeys_append]
        intro hmem
        rcases List.mem_append.mp hmem with h1 | h2
        · exact hk0rest h1
        · exact hk0key (by simpa [storeKeys] using h2)
      have hdel : deleteStore (insertStore (p :: rest) key v) k0 =
          rest ++ [(key, v)] := by
        rw [hins, List.cons_append]
        simp only [deleteStore]
        rw [if_pos hp]
        exact deleteStore_not_mem _ _ hnotmem
      have hlenrest : rest.length = ks.length := by
        have := congrArg List.length hrest
        simpa [storeKeys] using this
      refine ⟨?_, ?_, ?_⟩
      · rw [hdel, storeKeys_append, hrest]; rfl
      · rw [hdel]; simp [hlenrest]
      · rw [hdel]; exact lookupStore_not_mem _ _ hnotmem


/-- C7: saving the `(maxSaved + 1)`-th instance through `updateCache`
(`saveInputHash; saveOutputToCache; clearOldInstances`) leaves exactly
`maxSaved` entries in every per-instance store, and the evicted oldest key
is removed coherently from `input_hash`, `output_hash` and `output` — and,
through the `InstancesCacher` override, from `cached_instances` as well; no
store retains an entry for the evicted instance. -/
theorem c7_eviction_coherence (m : Nat) (slot : CacheSlot) (key : String)
    (regv : Option String) (codeH : String) (out : Val) (ids : List String)
    (k0 : String) (ks : List String)
    (hk : storeKeys slot.inputHash = k0 :: ks)
    (hnd : (k0 :: ks).Nodup)
    (hm : (k0 :: ks).length = m)
    (hfresh : key ∉ k0 :: ks)
    (hoh : storeKeys slot.outputHash = k0 :: ks)
    (ho : storeKeys slot.output = k0 :: ks)
    (hci : storeKeys slot.cachedInstances = k0 :: ks) :
    (storeKeys (updateCacheS slot key regv codeH out m).1.inputHash =
        ks ++ [key] ∧
     storeKeys (updateCacheS slot key regv codeH out m).1.outputHash =
        ks ++ [key] ∧
     storeKeys (updateCacheS slot key regv codeH out m).1.output =
        ks ++ [key] ∧
     (updateCacheS slot key regv codeH out m).1.inputHash.length = m ∧
     (updateCacheS slot key regv codeH out m).1.outputHash.length = m ∧
     (updateCacheS slot key regv codeH out m).1.output.length = m ∧
     lookupStore (updateCacheS slot key regv codeH out m).1.inputHash k0 =
        none ∧
     lookupStore (updateCacheS slot key regv codeH out m).1.outputHash k0 =
        none ∧
     lookupStore (updateCacheS slot key regv codeH out m).1.output k0 =
        none) ∧
    (storeKeys (updateCacheI slot key regv codeH ids out m).1.inputHash =
        ks ++ [key] ∧
     storeKeys (updateCacheI slot key regv codeH ids out m).1.outputHash =
        ks ++ [key] ∧
     storeKeys (updateCacheI slot key regv codeH ids out m).1.output =
        ks ++ [key] ∧
     storeKeys (updateCacheI slot key regv codeH ids out m).1.cachedInstances =
        ks ++ [key] ∧
     (updateCacheI slot key regv codeH ids out m).1.inputHash.length = m ∧
     (updateCacheI slot key regv codeH ids out m).1.outputHash.length = m ∧
     (updateCacheI slot key regv codeH ids out m).1.output.length = m ∧
     (updateCacheI slot key regv codeH ids out m).1.cachedInstances.length =
        m ∧
     lookupStore (updateCacheI slot key regv codeH ids out m).1.inputHash k0 =
        none ∧
     lookupStore (updateCacheI slot key regv codeH ids out m).1.outputHash k0 =
        none ∧
     lookupStore (updateCacheI slot key regv codeH ids out m).1.output k0 =
        none ∧
     lookupStore
        (updateCacheI slot key regv codeH ids out m).1.cachedInstances k0 =
        none) := by
  have hm1 : ks.length + 1 = m := by simpa using hm
  have hm0 : m ≠ 0 := by omega
  have hfreshIH : key ∉ storeKeys slot.inputHash := by rw [hk]; exact hfresh
  have hkIH : storeKeys (insertStore slot.inputHash key regv) =
      (k0 :: ks) ++ [key] := by
    rw [insertStore_not_mem _ _ _ hfreshIH, storeKeys_append, hk]; rfl
  have hguard : ¬ (storeKeys (insertStore slot.inputHash key regv)).length
      < m := by
    rw [hkIH]; simp; omega
  have hdrop : pyDropFromEnd
      (storeKeys (insertStore slot.inputHash key regv)) m = [k0] := by
    rw [hkIH]
    unfold pyDropFromEnd
    rw [if_neg hm0]
    have hl : ((k0 :: ks) ++ [key]).length - m = 1 := by simp; omega
    rw [hl, List.cons_append]
    rfl
  have hS : (updateCacheS slot key regv codeH out m).1 =
      { codeHash := some codeH,
        inputHash := deleteStore (insertStore slot.inputHash key regv) k0,
        outputHash :=
          deleteStore (insertStore slot.outputHash key (hashVal out)) k0,
        output := deleteStore (insertStore slot.output key out) k0,
        cachedInstances := slot.cachedInstances } := by
    simp only [updateCacheS, saveInputHashS, saveOutputToCacheS,
      clearOldInstancesS]
    rw [if_neg hguard, hdrop]
    simp [List.foldl]
  have hI : (updateCacheI slot key regv codeH ids out m).1 =
      { codeHash := some codeH,
        inputHash := deleteStore (insertStore slot.inputHash key regv) k0,
        outputHash :=
          deleteStore (insertStore slot.outputHash key (hashVal out)) k0,
        output := deleteStore (insertStore slot.output key out) k0,
        cachedInstances :=
          deleteStore (insertStore slot.cachedInstances key ids) k0 } := by
    simp only [updateCacheI, saveInputHashI, saveInputHashS, saveInstancesS,
      saveOutputToCacheS, clearOldInstancesI, clearOldInstancesS]
    rw [if_neg hguard, hdrop]
    simp [List.foldl]
  have eIH := evict_one slot.inputHash k0 ks key regv hk hnd hfresh
  have eOH := evict_one slot.outputHash k0 ks key (hashVal out) hoh hnd hfresh
  have eO := evict_one slot.output k0 ks key out ho hnd hfresh
  have eCI := evict_one slot.cachedInstances k0 ks key ids hci hnd hfresh
  constructor
  · rw [hS]
    exact ⟨eIH.1, eOH.1, eO.1,
      by rw [eIH.2.1]; omega, by rw [eOH.2.1]; omega, by rw [eO.2.1]; omega,
      eIH.2.2, eOH.2.2, eO.2.2⟩
  · rw [hI]
    exact ⟨eIH.1, eOH.1, eO.1, eCI.1,
      by rw [eIH.2.1]; omega, by rw [eOH.2.1]; omega, by rw [eO.2.1]; omega,
      by rw [eCI.2.1]; omega,
      eIH.2.2, eOH.2.2, eO.2.2, eCI.2.2⟩


/-- Characterization of the aggregation fold of `IterativePipeline._run`:
the result mapping collects the non-failed tasks in key order, the failure
counter counts the skips, and `stepReached` follows `srPar` (overwritten
each iteration) in parallel mode and `srSeq` (sticky) in sequential
mode. -/
theorem iterAggFrom_char (par : Bool) (results : List (String × TaskRes)) :
    ∀ (s : AggSt),
    (∀ k, k ∈ storeKeys results → k ∉ storeKeys s.ret) →
    (storeKeys results).Nodup →
    iterAggFrom par s results =
      ⟨s.ret ++ collectRes results, s.failed + countSkips results,
       if par then srPar s.stepReached results
       else srSeq s.stepReached results⟩ := by
  induction results with
  | nil =>
      intro s _ _
      cases s
      simp [iterAggFrom, collectRes, countSkips, srPar, srSeq]
  | cons p rest ih =>
      intro s hdisj hnd
      obtain ⟨k, r⟩ := p
      have hknotin : k ∉ storeKeys s.ret :=
        hdisj k (by simp [storeKeys])
      have hnd1 : (k :: storeKeys rest).Nodup := by
        simpa [storeKeys] using hnd
      have hndrest : (storeKeys rest).Nodup := hnd1.of_cons
      have hknotrest : k ∉ storeKeys rest := (List.nodup_cons.mp hnd1).1
      have hdisjskip : ∀ k2, k2 ∈ storeKeys rest → k2 ∉ storeKeys s.ret :=
        fun k2 h2 => hdisj k2 (by simp [storeKeys] at h2 ⊢; exact .inr h2)
      have hinsEq : ∀ (v : Val), insertStore s.ret k v = s.ret ++ [(k, v)] :=
        fun v => insertStore_not_mem _ _ _ hknotin
      have hdisjins : ∀ (v : Val) (k2 : String), k2 ∈ storeKeys rest →
          k2 ∉ storeKeys (insertStore s.ret k v) := by
        intro v k2 h2
        rw [hinsEq v, storeKeys_append]
        intro hmem
        rcases List.mem_append.mp hmem with h3 | h3
        · exact hdisjskip k2 h2 h3
        · have h4 : k2 = k := by simpa [storeKeys] using h3
          exact hknotrest (h4 ▸ h2)
      have hstep : ∀ (sx : AggSt),
          iterAggFrom par sx ((k, r) :: rest) =
            iterAggFrom par
              ((if par then aggStepPar else aggStepSeq) sx (k, r)) rest :=
        fun sx => by simp [iterAggFrom, List.foldl_cons]
      rw [hstep]
      cases par
      · cases r
        case ok v =>
          rw [show (if false then aggStepPar else aggStepSeq) s
              (k, TaskRes.ok v) =
              (⟨insertStore s.ret k v, s.failed, s.stepReached⟩ : AggSt)
            from rfl]
          rw [ih ⟨insertStore s.ret k v, s.failed, s.stepReached⟩
            (hdisjins v) hndrest]
          simp [collectRes, countSkips, srSeq, isUntilRes, hinsEq v]
        case skip =>
          rw [show (if false then aggStepPar else aggStepSeq) s
              (k, TaskRes.skip) =
              (⟨s.ret, s.failed + 1, s.stepReached⟩ : AggSt) from rfl]
          rw [ih ⟨s.ret, s.failed + 1, s.stepReached⟩ hdisjskip hndrest]
          simp [collectRes, countSkips, srSeq, isUntilRes]
          omega
        case untilR d =>
          rw [show (if false then aggStepPar else aggStepSeq) s
              (k, TaskRes.untilR d) =
              (⟨insertStore s.ret k d, s.failed, true⟩ : AggSt) from rfl]
          rw [ih ⟨insertStore s.ret k d, s.failed, true⟩
            (hdisjins d) hndrest]
          simp [collectRes, countSkips, srSeq, isUntilRes, hinsEq d]
      · cases r
        case ok v =>
          rw [show (if true then aggStepPar else aggStepSeq) s
              (k, TaskRes.ok v) =
              (⟨insertStore s.ret k v, s.failed, false⟩ : AggSt) from rfl]
          rw [ih ⟨insertStore s.ret k v, s.failed, false⟩
            (hdisjins v) hndrest]
          simp [collectRes, countSkips, srPar, isUntilRes, hinsEq v]
        case skip =>
          rw [show (if true then aggStepPar else aggStepSeq) s
              (k, TaskRes.skip) =
              (⟨s.ret, s.failed + 1, false⟩ : AggSt) from rfl]
          rw [ih ⟨s.ret, s.failed + 1, false⟩ hdisjskip hndrest]
          simp [collectRes, countSkips, srPar, isUntilRes]
          omega
        case untilR d =>
          rw [show (if true then aggStepPar else aggStepSeq) s
              (k, TaskRes.untilR d) =
              (⟨insertStore s.ret k d, s.failed, true⟩ : AggSt) from rfl]
          rw [ih ⟨insertStore s.ret k d, s.failed, true⟩
            (hdisjins d) hndrest]
          simp [collectRes, countSkips, srPar, isUntilRes, hinsEq d]


/-- The failure counter never exceeds the number of tasks. -/
theorem countSkips_le (rs : List (String × TaskRes)) :
    countSkips rs ≤ rs.length := by
  induction rs with
  | nil => simp [countSkips]
  | cons p rest ih =>
      obtain ⟨k, r⟩ := p
      cases r <;> simp [countSkips] <;> omega


/-- The failure counter equals the task count exactly when every task
skipped. -/
theorem countSkips_eq_length_iff (rs : List (String × TaskRes)) :
    countSkips rs = rs.length ↔ rs.all (fun p => isSkipRes p.2) = true := by
  induction rs with
  | nil => simp [countSkips]
  | cons p rest ih =>
      obtain ⟨k, r⟩ := p
      have hle := countSkips_le rest
      cases r
      case ok v =>
        rw [List.all_cons,
          show isSkipRes (k, TaskRes.ok v).2 = false from rfl,
          Bool.false_and,
          show countSkips ((k, TaskRes.ok v) :: rest) = countSkips rest
            from rfl,
          List.length_cons]
        simp
        omega
      case skip =>
        rw [List.all_cons,
          show isSkipRes (k, TaskRes.skip).2 = true from rfl,
          Bool.true_and,
          show countSkips ((k, TaskRes.skip) :: rest) = countSkips rest + 1
            from rfl,
          List.length_cons, ← ih]
        omega
      case untilR d =>
        rw [List.all_cons,
          show isSkipRes (k, TaskRes.untilR d).2 = false from rfl,
          Bool.false_and,
          show countSkips ((k, TaskRes.untilR d) :: rest) = countSkips rest
            from rfl,
          List.length_cons]
        simp
        omega


/-- C9 (amended): if every task fails, `IterativePipeline._run` raises
`SkipIterationError`; otherwise it returns the ordered mapping of the
non-failed tasks wrapped in a 1-tuple, and the `UntilStepReached`
dispatch (return at root, raise otherwise) is governed by `stepReached`,
which is any-task sticky only in sequential mode — in parallel mode it
reflects only the last task. -/
theorem c9_iterative_aggregation (par isRoot : Bool)
    (results : List (String × TaskRes))
    (hnd : (storeKeys results).Nodup) :
    (results.all (fun p => isSkipRes p.2) = true →
      iterRunResults par isRoot results = .error .skipIteration) ∧
    (results.all (fun p => isSkipRes p.2) = false →
      iterRunResults par isRoot results =
        (if (if par then srPar false results else srSeq false results) then
           (if isRoot then
              Except.ok (Val.tup [Val.dict (collectRes results)])
            else
              Except.error
                (.untilStepReached (Val.tup [Val.dict (collectRes results)])))
         else Except.ok (Val.tup [Val.dict (collectRes results)]))) := by
  have hchar := iterAggFrom_char par results aggInit
    (by intro k h; simp [aggInit, storeKeys]) hnd
  constructor
  · intro hall
    have hceq : countSkips results = results.length :=
      (countSkips_eq_length_iff results).mpr hall
    rw [iterRunResults, hchar]
    simp [iterFinalize, aggInit, hceq]
  · intro hall
    have hcne : countSkips results ≠ results.length := by
      intro he
      have := (countSkips_eq_length_iff results).mp he
      rw [this] at hall
      exact Bool.noConfusion hall
    rw [iterRunResults, hchar]
    simp [iterFinalize, aggInit, hcne]


/-- Witness for the aggregation theorem: in sequential mode an early
`UntilStepReached` task does propagate `UntilStepReached(aggregate)` on a
non-root pipeline. -/
theorem c9_iterative_aggregation_witness :
    iterRunResults false false c9Results =
      .error (.untilStepReached
        (.tup [.dict [("k1", .str "d1"), ("k2", .str "v2")]])) :=
  (c9_iterative_aggregation false false c9Results (by decide)).2 (by decide)


/-- Witness for the eviction theorem at a ten-instance slot with the
default `maxSaved = 10`. -/
theorem c7_eviction_coherence_witness :
    storeKeys (updateCacheS fullSlot "new" (some "h2") "ch2" (Val.str "o2")
        10).1.inputHash =
      ["k1", "k2", "k3", "k4", "k5", "k6", "k7", "k8", "k9", "new"] :=
  (c7_eviction_coherence 10 fullSlot "new" (some "h2") "ch2" (Val.str "o2")
    ["new"] "k0" ["k1", "k2", "k3", "k4", "k5", "k6", "k7", "k8", "k9"]
    (by decide) (by decide) (by decide) (by decide) (by decide) (by decide)
    (by decide)).1.1


/-- Every outcome of one child-loop iteration is prefixed by the `visit`
event of that child. -/
theorem handleChildResult_visit (pCname lastName : String) (pIsRoot : Bool)
    (pCodeHash : String) (us : Option String) (cname : String) (out : Val)
    (r : RS × List Ev × Except Exc Val) :
    ∃ t, (handleChildResult pCname lastName pIsRoot pCodeHash us cname out
      r).2.1 = .visit cname :: t := by
  rcases r with ⟨stA, evsA, res⟩
  rcases res with v | e
  · unfold handleChildResult
    repeat' split
    all_goals exact ⟨_, rfl⟩
  · unfold handleChildResult
    cases e <;> (repeat' split) <;> exact ⟨_, rfl⟩


/-- The events of one executed child start with its `visit` event. -/
theorem runOneChild_visit
    (recRun : Elem → String → RS → Val → Option String → Option String →
      Bool → List String → RS × List Ev × Except Exc Val)
    (pCname lastName : String) (pIsRoot : Bool) (pCodeHash : String)
    (us fs : Option String) (ofd : Bool) (frs : List String) (c : Elem)
    (cname : String) (st : RS) (out : Val) :
    ∃ t, (runOneChild recRun pCname lastName pIsRoot pCodeHash us fs ofd
      frs c cname st out).2.1 = .visit cname :: t := by
  unfold runOneChild
  exact handleChildResult_visit pCname lastName pIsRoot pCodeHash us cname
    out _


/-- The event list of the child loop is either empty or starts with a
`visit` event — never with a pipeline-level `cacheSkip`. -/
theorem runChildren_head
    (recRun : Elem → String → RS → Val → Option String → Option String →
      Bool → List String → RS × List Ev × Except Exc Val)
    (pCname lastName : String) (pIsRoot : Bool) (pCodeHash : String)
    (us fs : Option String) (ofd : Bool) (frs : List String) :
    ∀ (cs : List Elem) (doFlag : Bool) (st : RS) (out : Val),
    (runChildren recRun pCname lastName pIsRoot pCodeHash us fs ofd frs
        cs doFlag st out).2.1.head? = none ∨
    ∃ n, (runChildren recRun pCname lastName pIsRoot pCodeHash us fs ofd frs
        cs doFlag st out).2.1.head? = some (.visit n) := by
  intro cs
  induction cs with
  | nil => intro doFlag st out; left; rfl
  | cons c rest ih =>
      intro doFlag st out
      simp only [runChildren]
      cases hact : fromStepAct c (mkName pCname (elemName c)) fs doFlag
      case skipSilent =>
        simp only [hact]
        exact ih doFlag st out
      case loadAndSkip =>
        simp only [hact]
        by_cases hex : outputFileExists st (mkName pCname (elemName c)) = true
        · simp only [hex, if_true]
          rcases hload : loadCachedOutputS
              (getSlot st (mkName pCname (elemName c))) instKeyNone
            with e | v
          · simp only [hload]
            left
            rfl
          · simp only [hload]
            exact ih true st v
        · simp only [Bool.not_eq_true] at hex
          simp only [hex, Bool.false_eq_true, if_false]
          exact ih true st out
      case runForced =>
        simp only [hact]
        obtain ⟨t, ht⟩ := runOneChild_visit recRun pCname lastName pIsRoot
          pCodeHash us fs ofd frs c (mkName pCname (elemName c)) st out
        rcases hrr : runOneChild recRun pCname lastName pIsRoot pCodeHash
            us fs ofd frs c (mkName pCname (elemName c)) st out with
          ⟨stA, evsA, sr⟩
        rw [hrr] at ht
        simp only at ht
        cases sr
        case stop lo =>
          right
          exact ⟨mkName pCname (elemName c), by simp [ht]⟩
        case again out1 =>
          rcases hrc : runChildren recRun pCname lastName pIsRoot pCodeHash
              us fs ofd frs rest true stA out1 with ⟨stB, evsB, lo⟩
          right
          refine ⟨mkName pCname (elemName c), ?_⟩
          simp [hrc, ht]
      case runPlain =>
        simp only [hact]
        obtain ⟨t, ht⟩ := runOneChild_visit recRun pCname lastName pIsRoot
          pCodeHash us fs ofd frs c (mkName pCname (elemName c)) st out
        rcases hrr : runOneChild recRun pCname lastName pIsRoot pCodeHash
            us fs ofd frs c (mkName pCname (elemName c)) st out with
          ⟨stA, evsA, sr⟩
        rw [hrr] at ht
        simp only at ht
        cases sr
        case stop lo =>
          right
          exact ⟨mkName pCname (elemName c), by simp [ht]⟩
        case again out1 =>
          rcases hrc : runChildren recRun pCname lastName pIsRoot pCodeHash
              us fs ofd frs rest doFlag stA out1 with ⟨stB, evsB, lo⟩
          right
          refine ⟨mkName pCname (elemName c), ?_⟩
          simp [hrc, ht]


/-- C3 (amended): a call of `Pipeline._run` serves its own cached output
without walking its children (observable as the `cacheSkip` head event)
exactly when the root `untilStep` existence check does not fail, `forceDo`
is false, and `useCache` holds — that is, `untilStep` matches none of this
pipeline's collapsed steps, no `forceRunSteps` entry matches one, and
`checkInput(inp)` succeeds.  A non-null `untilStep` or non-empty
`forceRunSteps` forces a walk only when it matches a step of this
pipeline. -/
theorem c3_pipeline_cache_gate (fuel : Nat) (nm : String) (cf : Bool)
    (cs : List Elem) (pfx : String) (isRoot : Bool) (st : RS) (inp : Val)
    (us fs : Option String) (forceDo : Bool) (frs : List String) :
    ((runElem (fuel + 1) (.pipe nm cf cs) pfx isRoot st inp us fs forceDo
        frs).2.1.head? = some (.cacheSkip (mkName pfx nm))) ↔
    (rootUntilMissing (leafNamesList cs (mkName pfx nm)) isRoot us fs =
        false ∧
     forceDo = false ∧
     (useCacheEval st (mkName pfx nm) (leafNamesList cs (mkName pfx nm)) cf
        inp us frs).1 = true) := by
  simp only [runElem]
  cases hroot : rootUntilMissing (leafNamesList cs (mkName pfx nm)) isRoot
      us fs
  · simp only [hroot, Bool.false_eq_true, if_false]
    cases forceDo
    · simp only [Bool.false_eq_true, if_false]
      cases hg : (useCacheEval st (mkName pfx nm)
          (leafNamesList cs (mkName pfx nm)) cf inp us frs).1
      · simp only [hg, Bool.false_eq_true, if_false]
        have hh := runChildren_head
          (fun c pfx2 st2 inp2 us2 fs2 fd2 fr2 =>
            runElem fuel c pfx2 false st2 inp2 us2 fs2 fd2 fr2)
          (mkName pfx nm)
          ((leafNamesList cs (mkName pfx nm)).getLast?.getD "") isRoot
          (codeHashOf (.pipe nm cf cs)) us fs false frs cs false
          ((useCacheEval st (mkName pfx nm)
            (leafNamesList cs (mkName pfx nm)) cf inp us frs).2) inp
        rcases hrc : runChildren
            (fun c pfx2 st2 inp2 us2 fs2 fd2 fr2 =>
              runElem fuel c pfx2 false st2 inp2 us2 fs2 fd2 fr2)
            (mkName pfx nm)
            ((leafNamesList cs (mkName pfx nm)).getLast?.getD "") isRoot
            (codeHashOf (.pipe nm cf cs)) us fs false frs cs false
            ((useCacheEval st (mkName pfx nm)
              (leafNamesList cs (mkName pfx nm)) cf inp us frs).2) inp
          with ⟨st2, evs, lo⟩
        rw [hrc] at hh
        simp only at hh
        apply iff_of_false
        · cases lo
          case done out =>
            cases cf <;> intro hL <;>
              simp only [Bool.false_eq_true, if_false, if_true] at hL <;>
              rcases hh with hh | ⟨n, hh⟩ <;> simp [hh] at hL
          case early v =>
            intro hL
            simp only at hL
            rcases hh with hh | ⟨n, hh⟩ <;> simp [hh] at hL
          case err e =>
            intro hL
            simp only at hL
            rcases hh with hh | ⟨n, hh⟩ <;> simp [hh] at hL
        · simp
      · simp only [hg, if_true]
        apply iff_of_true
        · rfl
        · simp
    · simp only [if_true]
      have hh := runChildren_head
        (fun c pfx2 st2 inp2 us2 fs2 fd2 fr2 =>
          runElem fuel c pfx2 false st2 inp2 us2 fs2 fd2 fr2)
        (mkName pfx nm)
        ((leafNamesList cs (mkName pfx nm)).getLast?.getD "") isRoot
        (codeHashOf (.pipe nm cf cs)) us fs true frs cs true st inp
      rcases hrc : runChildren
          (fun c pfx2 st2 inp2 us2 fs2 fd2 fr2 =>
            runElem fuel c pfx2 false st2 inp2 us2 fs2 fd2 fr2)
          (mkName pfx nm)
          ((leafNamesList cs (mkName pfx nm)).getLast?.getD "") isRoot
          (codeHashOf (.pipe nm cf cs)) us fs true frs cs true st inp
        with ⟨st2, evs, lo⟩
      rw [hrc] at hh
      simp only at hh
      apply iff_of_false
      · cases lo
        case done out =>
          cases cf <;> intro hL <;>
            simp only [Bool.false_eq_true, if_false, if_true] at hL <;>
            rcases hh with hh | ⟨n, hh⟩ <;> simp [hh] at hL
        case early v =>
          intro hL
          simp only at hL
          rcases hh with hh | ⟨n, hh⟩ <;> simp [hh] at hL
        case err e =>
          intro hL
          simp only at hL
          rcases hh with hh | ⟨n, hh⟩ <;> simp [hh] at hL
      · simp
  · simp only [hroot, if_true]
    apply iff_of_false
    · intro h
      simp at h
    · simp
